import Mathlib

/-!
Shallow embedding of `src/canvas.schemes.js` (the `Scheme` widget closure and
the `utility` helper object), together with proofs of the specified
properties of the widget.

Modelling conventions:
* The pixel coordinates handled by the widget (label coordinates after
  `parseInt`, padding, radii, event offsets) are modelled as `Int`.
* An element's `className` string is modelled by its list of space-separated
  class tokens: every `utility` helper splits the string on a space, operates
  on the resulting token list and joins it back with spaces, and the
  split/join round-trip is the identity on token lists.
* The immediate-mode 2D canvas context is modelled by the list of drawing
  commands issued so far (`canvasOps`); `clearRect`, `fillRect`, `drawImage`,
  `fillText` and the `arc`/`stroke` pair each append one command.  Pure
  context-attribute writes (`font`, `textAlign`, `save`/`restore`, ...) that
  only parameterise those commands are not tracked separately.
* The JS variable `hoveredArea` is either `{}` or one area object; it is
  modelled as an `Option Area`.
* The DOM parts list is modelled by `items`: one entry per element of class
  `part_number`, holding its `data-part-number` attribute and the class-token
  list of its parent element (the element that receives the `selected`
  class).
-/

namespace CanvasSchemes

/-- One entry of the parsed `labelsJSON` array: fields `sLabel`, `label_x1`,
`label_y1` (the coordinate strings are read with `parseInt`). -/
structure Label where
  sLabel : String
  label_x1 : Int
  label_y1 : Int
deriving DecidableEq

/-- The `config` object of the widget. -/
structure Config where
  padding : Int
  bgColor : String
  fontFamily : String
  fontSize : String
  fontColor : String
  areaRadius : Int
  areaColor : String
  scale : Int
deriving DecidableEq

/-- The default configuration, exactly the `config` initializer of the
`Scheme` constructor. -/
def defaultConfig : Config :=
  { padding := 30, bgColor := "#fff", fontFamily := "Arial", fontSize := "12px",
    fontColor := "#555555", areaRadius := 10, areaColor := "#a52a2a", scale := 1 }

/-- Area around a label, with the fields assigned by the `Area` constructor
function. -/
structure Area where
  name : String
  left : Int
  top : Int
  right : Int
  bottom : Int
  x : Int
  y : Int
  radius : Int
deriving DecidableEq

/-- The `Area` constructor function: bounding box precomputed from the
center and radius. -/
def Area.make (name : String) (x y radius : Int) : Area :=
  { name := name, left := x - radius, top := y - radius, right := x + radius,
    bottom := y + radius, x := x, y := y, radius := radius }

/-- The `utility.addClass` helper on the class-token list: push the class
if it is absent (`indexOf == -1`), otherwise leave the list unchanged. -/
def utility.addClass (className : List String) (cls : String) : List String :=
  if className.contains cls then className else className ++ [cls]

/-- The `utility.removeClass` helper on the class-token list: splice out
every occurrence of the class. -/
def utility.removeClass (className : List String) (cls : String) : List String :=
  className.filter (fun c => !(c == cls))

/-- The `utility.toggleClass` helper on the class-token list. -/
def utility.toggleClass (className : List String) (cls : String) : List String :=
  if className.contains cls then utility.removeClass className cls
  else utility.addClass className cls

/-- The `utility.inRange` helper: `val >= min && val <= max`. -/
def utility.inRange (val min max : Int) : Bool :=
  decide (val ≥ min) && decide (val ≤ max)

/-- The `coordsInArea` check: the point is inside the area's bounding box
(both bounds inclusive on both axes). -/
def coordsInArea (x y : Int) (area : Area) : Bool :=
  utility.inRange x area.left area.right && utility.inRange y area.top area.bottom

/-- One element of class `part_number` in the parts list: its
`data-part-number` attribute and the class-token list of its parent
element. -/
structure Item where
  partNumber : String
  parentClassName : List String
deriving DecidableEq

/-- One drawing command issued to the 2D context. -/
inductive DrawOp where
  | clearRect (x y w h : Int)
  | fillRect (x y w h : Int) (color : String)
  | drawImage (x y : Int)
  | fillText (text : String) (x y : Int)
  | strokeCircle (x y radius : Int) (color : String)
deriving DecidableEq

/-- The mutable state captured by the `Scheme` closure (plus the canvas
command log and the DOM pieces the widget mutates). -/
structure SchemeState where
  areas : List Area
  selectedAreas : List Area
  hoveredArea : Option Area
  items : List Item
  canvasClassName : List String
  canvasWidth : Int
  canvasHeight : Int
  canvasOps : List DrawOp
deriving DecidableEq

/-- The `drawArea` function: one `arc`/`stroke` command at the given center
with the configured area color. -/
def drawArea (cfg : Config) (x y radius : Int) : DrawOp :=
  DrawOp.strokeCircle x y radius cfg.areaColor

/-- The `drawLabel` function: issue the `fillText` command and build the
area saved by `saveArea` (the commented-out `drawArea` call is not
executed). -/
def drawLabel (cfg : Config) (text : String) (x y : Int) : DrawOp × Area :=
  (DrawOp.fillText text x y, Area.make text x y cfg.areaRadius)

/-- The `drawLabels` loop: for each label in order, draw its text at
`(label_x1 + padding, label_y1 + padding)` and save the corresponding
area. -/
def drawLabels (cfg : Config) : List Label → List DrawOp × List Area
  | [] => ([], [])
  | label :: rest =>
    let x := label.label_x1 + cfg.padding
    let y := label.label_y1 + cfg.padding
    let dl := drawLabel cfg label.sLabel x y
    let r := drawLabels cfg rest
    (dl.1 :: r.1, dl.2 :: r.2)

/-- The areas registered by one pass of `drawLabels`. -/
def labelAreas (cfg : Config) (labels : List Label) : List Area :=
  (drawLabels cfg labels).2

/-- The `drawSelectedAreas` loop: stroke a circle at each selected area. -/
def drawSelectedAreas (cfg : Config) (selectedAreas : List Area) : List DrawOp :=
  selectedAreas.map (fun area => drawArea cfg area.x area.y area.radius)

/-- The `drawScheme` render pass: resize the canvas to the image size plus
padding, fill the background, draw the image at `(padding, padding)`, draw
the labels (appending their areas to the area array via `saveArea`), then
stroke the selected areas. -/
def drawScheme (cfg : Config) (labels : List Label) (imgW imgH : Int)
    (s : SchemeState) : SchemeState :=
  let w := imgW + cfg.padding * 2
  let h := imgH + cfg.padding * 2
  let dl := drawLabels cfg labels
  { s with
    canvasWidth := w
    canvasHeight := h
    areas := s.areas ++ dl.2
    canvasOps := s.canvasOps ++
      (DrawOp.fillRect 0 0 w h cfg.bgColor ::
        DrawOp.drawImage cfg.padding cfg.padding :: dl.1) ++
      drawSelectedAreas cfg s.selectedAreas }

/-- The `redrawScheme` function: clear the canvas, reset the area array to
`[]`, and run a full render pass. -/
def redrawScheme (cfg : Config) (labels : List Label) (imgW imgH : Int)
    (s : SchemeState) : SchemeState :=
  drawScheme cfg labels imgW imgH
    { s with
      canvasOps := s.canvasOps ++ [DrawOp.clearRect 0 0 s.canvasWidth s.canvasHeight]
      areas := [] }

/-- The `findAllAreas` function: all areas of the area array with the given
name, in array order. -/
def findAllAreas (areas : List Area) (name : String) : List Area :=
  areas.filter (fun a => a.name == name)

/-- The `removeSelectedAreas` function.  The JS loop splices every
same-named entry out of `selectedAreas` and returns the removed entries;
this is the partition of the list by the name, first component removed,
second component remaining. -/
def removeSelectedAreas (selectedAreas : List Area) (name : String) :
    List Area × List Area :=
  selectedAreas.partition (fun a => a.name == name)

/-- The `toggleItemHighlight` function: apply the class-changing function
to the parent of every list item whose `data-part-number` equals the given
part number. -/
def toggleItemHighlight (items : List Item) (partNumber : String)
    (func : List String → String → List String) : List Item :=
  items.map (fun it =>
    if it.partNumber == partNumber then
      { it with parentClassName := func it.parentClassName "selected" }
    else it)

/-- The `toggleHighlight` function: if no area has the name, do nothing;
if some selected areas have the name, remove them, remove the `selected`
class and redraw; otherwise select all same-named areas, add the
`selected` class and redraw. -/
def toggleHighlight (cfg : Config) (labels : List Label) (imgW imgH : Int)
    (s : SchemeState) (partNumber : String) : SchemeState :=
  let foundAreas := findAllAreas s.areas partNumber
  if foundAreas.isEmpty then s
  else if (removeSelectedAreas s.selectedAreas partNumber).1.isEmpty then
    redrawScheme cfg labels imgW imgH
      { s with
        selectedAreas := s.selectedAreas ++ foundAreas
        items := toggleItemHighlight s.items partNumber utility.addClass }
  else
    redrawScheme cfg labels imgW imgH
      { s with
        selectedAreas := (removeSelectedAreas s.selectedAreas partNumber).2
        items := toggleItemHighlight s.items partNumber utility.removeClass }

/-- The scan inside `areaHovered`'s first branch: first area of the array
whose bounding box contains the point (the loop breaks at the first hit). -/
def firstHitArea (x y : Int) : List Area → Option Area
  | [] => none
  | area :: rest => if coordsInArea x y area then some area else firstHitArea x y rest

/-- The `areaHovered` mousemove handler: if nothing is hovered, hover the
first hit area and add the `pointer` class to the canvas; if the hovered
area's box no longer contains the point, clear the hover and remove the
class; otherwise do nothing. -/
def areaHovered (x y : Int) (s : SchemeState) : SchemeState :=
  match s.hoveredArea with
  | none =>
    match firstHitArea x y s.areas with
    | some area =>
      { s with hoveredArea := some area,
               canvasClassName := utility.addClass s.canvasClassName "pointer" }
    | none => s
  | some area =>
    if !(coordsInArea x y area) then
      { s with hoveredArea := none,
               canvasClassName := utility.removeClass s.canvasClassName "pointer" }
    else s

/-- The `itemClicked` handler: toggle the clicked item's part number. -/
def itemClicked (cfg : Config) (labels : List Label) (imgW imgH : Int)
    (s : SchemeState) (partNumber : String) : SchemeState :=
  toggleHighlight cfg labels imgW imgH s partNumber

/-- An area array produced by a toggle is the old one or the rebuilt one:
`toggleHighlight` either does nothing or redraws, and a redraw resets the
array and refills it from the labels. -/
theorem toggleHighlight_areas (cfg : Config) (labels : List Label)
    (imgW imgH : Int) (s : SchemeState) (n : String) :
    (toggleHighlight cfg labels imgW imgH s n).areas = s.areas ∨
      (toggleHighlight cfg labels imgW imgH s n).areas = labelAreas cfg labels := by
  unfold toggleHighlight
  dsimp only
  split
  · exact Or.inl rfl
  · split <;> exact Or.inr rfl

/-- One iteration of the `areaClicked` loop body: toggle the area's name if
its bounding box contains the click point. -/
def clickStep (cfg : Config) (labels : List Label) (imgW imgH : Int)
    (x y : Int) (area : Area) (s : SchemeState) : SchemeState :=
  if coordsInArea x y area then toggleHighlight cfg labels imgW imgH s area.name
  else s

theorem clickStep_areas (cfg : Config) (labels : List Label) (imgW imgH : Int)
    (x y : Int) (area : Area) (s : SchemeState) :
    (clickStep cfg labels imgW imgH x y area s).areas = s.areas ∨
      (clickStep cfg labels imgW imgH x y area s).areas = labelAreas cfg labels := by
  unfold clickStep
  split
  · exact toggleHighlight_areas cfg labels imgW imgH s area.name
  · exact Or.inl rfl

/-- The `areaClicked` loop from index `i`: the loop condition re-reads the
current area array on every iteration (a toggle inside the body replaces
the array with the rebuilt one). -/
def areaClickedLoop (cfg : Config) (labels : List Label) (imgW imgH : Int)
    (x y : Int) (i : Nat) (s : SchemeState) : SchemeState :=
  if h : i < s.areas.length then
    areaClickedLoop cfg labels imgW imgH x y (i + 1)
      (clickStep cfg labels imgW imgH x y (s.areas.get ⟨i, h⟩) s)
  else s
termination_by max s.areas.length (labelAreas cfg labels).length + 1 - i
decreasing_by
  simp_wf
  rcases clickStep_areas cfg labels imgW imgH x y s.areas[i] s with hc | hc <;>
    rw [hc] <;> omega

/-- The `areaClicked` click handler: scan the area array from index 0 and
toggle every hit area's name. -/
def areaClicked (cfg : Config) (labels : List Label) (imgW imgH : Int)
    (x y : Int) (s : SchemeState) : SchemeState :=
  areaClickedLoop cfg labels imgW imgH x y 0 s

/-- One external event consumed by the widget's handlers. -/
inductive SchemeEvent where
  | load
  | click (x y : Int)
  | mousemove (x y : Int)
  | itemClick (partNumber : String)
deriving DecidableEq

/-- Dispatch of one event to the handler registered for it. -/
def stepEvent (cfg : Config) (labels : List Label) (imgW imgH : Int)
    (s : SchemeState) : SchemeEvent → SchemeState
  | SchemeEvent.load => drawScheme cfg labels imgW imgH s
  | SchemeEvent.click x y => areaClicked cfg labels imgW imgH x y s
  | SchemeEvent.mousemove x y => areaHovered x y s
  | SchemeEvent.itemClick pn => itemClicked cfg labels imgW imgH s pn

/-- Run of the widget over a sequence of events. -/
def runEvents (cfg : Config) (labels : List Label) (imgW imgH : Int)
    (s : SchemeState) (events : List SchemeEvent) : SchemeState :=
  events.foldl (fun st e => stepEvent cfg labels imgW imgH st e) s

/-- Closed form of `drawLabels`: text commands and saved areas are the two
maps over the label list. -/
theorem drawLabels_eq (cfg : Config) (labels : List Label) :
    drawLabels cfg labels =
      (labels.map (fun l => DrawOp.fillText l.sLabel (l.label_x1 + cfg.padding)
          (l.label_y1 + cfg.padding)),
       labels.map (fun l => Area.make l.sLabel (l.label_x1 + cfg.padding)
          (l.label_y1 + cfg.padding) cfg.areaRadius)) := by
  induction labels with
  | nil => rfl
  | cons l rest ih => simp [drawLabels, drawLabel, ih]

theorem labelAreas_eq (cfg : Config) (labels : List Label) :
    labelAreas cfg labels =
      labels.map (fun l => Area.make l.sLabel (l.label_x1 + cfg.padding)
        (l.label_y1 + cfg.padding) cfg.areaRadius) := by
  rw [labelAreas, drawLabels_eq]

theorem labelAreas_length (cfg : Config) (labels : List Label) :
    (labelAreas cfg labels).length = labels.length := by
  rw [labelAreas_eq]; simp

theorem redrawScheme_areas (cfg : Config) (labels : List Label) (imgW imgH : Int)
    (s : SchemeState) :
    (redrawScheme cfg labels imgW imgH s).areas = labelAreas cfg labels := rfl

theorem redrawScheme_selectedAreas (cfg : Config) (labels : List Label)
    (imgW imgH : Int) (s : SchemeState) :
    (redrawScheme cfg labels imgW imgH s).selectedAreas = s.selectedAreas := rfl

theorem redrawScheme_items (cfg : Config) (labels : List Label) (imgW imgH : Int)
    (s : SchemeState) :
    (redrawScheme cfg labels imgW imgH s).items = s.items := rfl

theorem redrawScheme_hoveredArea (cfg : Config) (labels : List Label)
    (imgW imgH : Int) (s : SchemeState) :
    (redrawScheme cfg labels imgW imgH s).hoveredArea = s.hoveredArea := rfl

theorem mem_findAllAreas {areas : List Area} {n : String} {a : Area} :
    a ∈ findAllAreas areas n ↔ a ∈ areas ∧ a.name = n := by
  simp [findAllAreas, List.mem_filter]

theorem findAllAreas_eq_nil_iff {areas : List Area} {n : String} :
    findAllAreas areas n = [] ↔ ∀ a ∈ areas, a.name ≠ n := by
  simp [findAllAreas, List.filter_eq_nil_iff]

theorem findAllAreas_filter_self (areas : List Area) (n : String) :
    (findAllAreas areas n).filter (fun a => a.name == n) = findAllAreas areas n := by
  refine List.filter_eq_self.mpr ?_
  intro a ha
  have h := (mem_findAllAreas.mp ha).2
  simp [h]

theorem removeSelectedAreas_fst (selectedAreas : List Area) (n : String) :
    (removeSelectedAreas selectedAreas n).1 =
      selectedAreas.filter (fun a => a.name == n) := by
  rw [removeSelectedAreas, List.partition_eq_filter_filter]

theorem removeSelectedAreas_snd (selectedAreas : List Area) (n : String) :
    (removeSelectedAreas selectedAreas n).2 =
      selectedAreas.filter (fun a => !(a.name == n)) := by
  rw [removeSelectedAreas, List.partition_eq_filter_filter]
  rfl

/-- Unfolding of `toggleHighlight` when no area bears the name: the early
return leaves the whole state untouched. -/
theorem toggleHighlight_not_found (cfg : Config) (labels : List Label)
    (imgW imgH : Int) (s : SchemeState) (n : String)
    (h : findAllAreas s.areas n = []) :
    toggleHighlight cfg labels imgW imgH s n = s := by
  unfold toggleHighlight
  simp [h]

/-- Unfolding of `toggleHighlight` on the selecting branch (areas found,
none of them currently selected). -/
theorem toggleHighlight_select (cfg : Config) (labels : List Label)
    (imgW imgH : Int) (s : SchemeState) (n : String)
    (h1 : findAllAreas s.areas n ≠ [])
    (h2 : s.selectedAreas.filter (fun a => a.name == n) = []) :
    toggleHighlight cfg labels imgW imgH s n =
      redrawScheme cfg labels imgW imgH
        { s with
          selectedAreas := s.selectedAreas ++ findAllAreas s.areas n
          items := toggleItemHighlight s.items n utility.addClass } := by
  unfold toggleHighlight
  dsimp only
  split
  · rename_i hemp
    exact absurd (List.isEmpty_iff.mp hemp) h1
  · split
    · rfl
    · rename_i hemp
      exfalso
      apply hemp
      rw [List.isEmpty_iff, removeSelectedAreas_fst]
      exact h2

/-- Unfolding of `toggleHighlight` on the deselecting branch (areas found,
some of them currently selected). -/
theorem toggleHighlight_deselect (cfg : Config) (labels : List Label)
    (imgW imgH : Int) (s : SchemeState) (n : String)
    (h1 : findAllAreas s.areas n ≠ [])
    (h2 : s.selectedAreas.filter (fun a => a.name == n) ≠ []) :
    toggleHighlight cfg labels imgW imgH s n =
      redrawScheme cfg labels imgW imgH
        { s with
          selectedAreas := s.selectedAreas.filter (fun a => !(a.name == n))
          items := toggleItemHighlight s.items n utility.removeClass } := by
  unfold toggleHighlight
  dsimp only
  split
  · rename_i hemp
    exact absurd (List.isEmpty_iff.mp hemp) h1
  · split
    · rename_i hemp
      exfalso
      apply h2
      have hthis := List.isEmpty_iff.mp hemp
      rwa [removeSelectedAreas_fst] at hthis
    · rw [removeSelectedAreas_snd]

theorem mem_addClass (c : List String) (cls : String) :
    cls ∈ utility.addClass c cls := by
  unfold utility.addClass
  split
  · rename_i hc
    simpa using hc
  · exact List.mem_append.mpr (Or.inr (List.mem_singleton.mpr rfl))

theorem not_mem_removeClass (c : List String) (cls : String) :
    cls ∉ utility.removeClass c cls := by
  unfold utility.removeClass
  intro hmem
  have hb := (List.mem_filter.mp hmem).2
  simp at hb

/-- Whether a list item's parent currently carries the `selected` class. -/
def itemSelected (it : Item) : Bool :=
  it.parentClassName.contains "selected"

/-- Selection-consistency invariant of a widget state: the area array is the
one rebuilt from the labels, every selected area is one of those areas, and
whenever an area is selected every same-named area is selected with it.
This holds in every state the widget can reach after its first render. -/
def SelectionInv (cfg : Config) (labels : List Label) (s : SchemeState) : Prop :=
  s.areas = labelAreas cfg labels ∧
  ∀ a ∈ s.selectedAreas,
    a ∈ labelAreas cfg labels ∧
    ∀ b ∈ labelAreas cfg labels, b.name = a.name → b ∈ s.selectedAreas

/-- List-item consistency invariant: a part item's parent carries the
`selected` class exactly when some selected area bears its part number. -/
def ItemsInv (s : SchemeState) : Prop :=
  ∀ it ∈ s.items,
    (itemSelected it = true ↔ ∃ a ∈ s.selectedAreas, a.name = it.partNumber)

/-- The toggle operation preserves the selection-consistency invariant. -/
theorem toggleHighlight_selectionInv (cfg : Config) (labels : List Label)
    (imgW imgH : Int) (s : SchemeState) (n : String)
    (h : SelectionInv cfg labels s) :
    SelectionInv cfg labels (toggleHighlight cfg labels imgW imgH s n) := by
  obtain ⟨hA, hS⟩ := h
  by_cases h1 : findAllAreas s.areas n = []
  · rw [toggleHighlight_not_found cfg labels imgW imgH s n h1]
    exact ⟨hA, hS⟩
  · by_cases h2 : s.selectedAreas.filter (fun a => a.name == n) = []
    · rw [toggleHighlight_select cfg labels imgW imgH s n h1 h2]
      refine ⟨redrawScheme_areas _ _ _ _ _, ?_⟩
      rw [redrawScheme_selectedAreas]
      intro a ha
      rcases List.mem_append.mp ha with ha | ha
      · obtain ⟨haLA, hall⟩ := hS a ha
        exact ⟨haLA, fun b hb hname => List.mem_append.mpr (Or.inl (hall b hb hname))⟩
      · obtain ⟨haMem, haName⟩ := mem_findAllAreas.mp ha
        rw [hA] at haMem
        refine ⟨haMem, ?_⟩
        intro b hb hname
        refine List.mem_append.mpr (Or.inr (mem_findAllAreas.mpr ⟨?_, ?_⟩))
        · rw [hA]; exact hb
        · rw [hname, haName]
    · rw [toggleHighlight_deselect cfg labels imgW imgH s n h1 h2]
      refine ⟨redrawScheme_areas _ _ _ _ _, ?_⟩
      rw [redrawScheme_selectedAreas]
      intro a ha
      have haS : a ∈ s.selectedAreas := List.mem_of_mem_filter ha
      have haN : a.name ≠ n := by
        have := (List.mem_filter.mp ha).2
        simpa using this
      obtain ⟨haLA, hall⟩ := hS a haS
      refine ⟨haLA, ?_⟩
      intro b hb hname
      refine List.mem_filter.mpr ⟨hall b hb hname, ?_⟩
      simp [hname, haN]

/-- In a state whose area array is the rebuilt one, the `areaClicked` loop
from index `i` is the left fold of the loop body over the remaining rebuilt
areas: every toggle inside the body replaces the array with an identical
rebuilt copy, so the indices keep addressing the same areas. -/
theorem clickLoop_eq_foldl (cfg : Config) (labels : List Label)
    (imgW imgH x y : Int) :
    ∀ k i s, (labelAreas cfg labels).length - i ≤ k →
      s.areas = labelAreas cfg labels →
      areaClickedLoop cfg labels imgW imgH x y i s =
        ((labelAreas cfg labels).drop i).foldl
          (fun st a => clickStep cfg labels imgW imgH x y a st) s := by
  intro k
  induction k with
  | zero =>
    intro i s hk hA
    have hle : (labelAreas cfg labels).length ≤ i := by omega
    have hnot : ¬ i < s.areas.length := by rw [hA]; omega
    rw [areaClickedLoop, dif_neg hnot, List.drop_eq_nil_of_le hle, List.foldl_nil]
  | succ k ih =>
    intro i s hk hA
    by_cases h : i < s.areas.length
    · have hilt : i < (labelAreas cfg labels).length := by rw [← hA]; exact h
      rw [areaClickedLoop, dif_pos h]
      have hget : s.areas.get ⟨i, h⟩ = (labelAreas cfg labels)[i] := by
        rw [List.get_of_eq hA ⟨i, h⟩, List.get_eq_getElem]
      rw [List.drop_eq_getElem_cons hilt, List.foldl_cons, hget]
      apply ih
      · omega
      · rcases clickStep_areas cfg labels imgW imgH x y (labelAreas cfg labels)[i] s
          with hc | hc
        · rw [hc]; exact hA
        · exact hc
    · have hle : (labelAreas cfg labels).length ≤ i := by
        rw [← hA]; omega
      rw [areaClickedLoop, dif_neg h, List.drop_eq_nil_of_le hle, List.foldl_nil]

/-- A fold of the click-loop body over areas that all miss the point leaves
the state unchanged. -/
theorem foldl_clickStep_no_hit (cfg : Config) (labels : List Label)
    (imgW imgH x y : Int) (l : List Area) (s : SchemeState)
    (h : ∀ a ∈ l, coordsInArea x y a = false) :
    l.foldl (fun st a => clickStep cfg labels imgW imgH x y a st) s = s := by
  induction l with
  | nil => rfl
  | cons a rest ih =>
    rw [List.foldl_cons]
    have ha := h a (List.mem_cons_self a rest)
    have hstep : clickStep cfg labels imgW imgH x y a s = s := by
      unfold clickStep
      rw [ha]
      rfl
    rw [hstep]
    exact ih (fun b hb => h b (List.mem_cons_of_mem a hb))

/-- The hover scan is the first find over the area array. -/
theorem firstHitArea_eq_find (x y : Int) (l : List Area) :
    firstHitArea x y l = l.find? (fun a => coordsInArea x y a) := by
  induction l with
  | nil => rfl
  | cons a rest ih =>
    cases h : coordsInArea x y a <;>
      simp [firstHitArea, List.find?_cons, h, ih]

/-- Two configurations that agree on every field other than `scale`. -/
def ScaleOnlyDiff (cfg cfg2 : Config) : Prop :=
  cfg2.padding = cfg.padding ∧ cfg2.bgColor = cfg.bgColor ∧
  cfg2.fontFamily = cfg.fontFamily ∧ cfg2.fontSize = cfg.fontSize ∧
  cfg2.fontColor = cfg.fontColor ∧ cfg2.areaRadius = cfg.areaRadius ∧
  cfg2.areaColor = cfg.areaColor

theorem drawLabels_scaleCongr {cfg cfg2 : Config} (h : ScaleOnlyDiff cfg cfg2)
    (labels : List Label) : drawLabels cfg2 labels = drawLabels cfg labels := by
  obtain ⟨hp, -, -, -, -, hr, -⟩ := h
  rw [drawLabels_eq, drawLabels_eq, hp, hr]

theorem drawSelectedAreas_scaleCongr {cfg cfg2 : Config} (h : ScaleOnlyDiff cfg cfg2)
    (selectedAreas : List Area) :
    drawSelectedAreas cfg2 selectedAreas = drawSelectedAreas cfg selectedAreas := by
  obtain ⟨-, -, -, -, -, -, hc⟩ := h
  unfold drawSelectedAreas drawArea
  rw [hc]

theorem drawScheme_scaleCongr {cfg cfg2 : Config} (h : ScaleOnlyDiff cfg cfg2)
    (labels : List Label) (imgW imgH : Int) (s : SchemeState) :
    drawScheme cfg2 labels imgW imgH s = drawScheme cfg labels imgW imgH s := by
  have hp := h.1
  have hb := h.2.1
  unfold drawScheme
  rw [drawLabels_scaleCongr h, drawSelectedAreas_scaleCongr h, hp, hb]

theorem redrawScheme_scaleCongr {cfg cfg2 : Config} (h : ScaleOnlyDiff cfg cfg2)
    (labels : List Label) (imgW imgH : Int) (s : SchemeState) :
    redrawScheme cfg2 labels imgW imgH s = redrawScheme cfg labels imgW imgH s := by
  unfold redrawScheme
  rw [drawScheme_scaleCongr h]

theorem toggleHighlight_scaleCongr {cfg cfg2 : Config} (h : ScaleOnlyDiff cfg cfg2)
    (labels : List Label) (imgW imgH : Int) (s : SchemeState) (n : String) :
    toggleHighlight cfg2 labels imgW imgH s n =
      toggleHighlight cfg labels imgW imgH s n := by
  unfold toggleHighlight
  simp only [redrawScheme_scaleCongr h]

theorem clickStep_scaleCongr {cfg cfg2 : Config} (h : ScaleOnlyDiff cfg cfg2)
    (labels : List Label) (imgW imgH x y : Int) (area : Area) (s : SchemeState) :
    clickStep cfg2 labels imgW imgH x y area s =
      clickStep cfg labels imgW imgH x y area s := by
  unfold clickStep
  rw [toggleHighlight_scaleCongr h]

theorem areaClickedLoop_scaleCongr {cfg cfg2 : Config} (h : ScaleOnlyDiff cfg cfg2)
    (labels : List Label) (imgW imgH x y : Int) :
    ∀ k i s, max s.areas.length (labelAreas cfg labels).length + 1 - i ≤ k →
      areaClickedLoop cfg2 labels imgW imgH x y i s =
        areaClickedLoop cfg labels imgW imgH x y i s := by
  intro k
  induction k with
  | zero =>
    intro i s hk
    have hnot : ¬ i < s.areas.length := by omega
    rw [areaClickedLoop, dif_neg hnot, areaClickedLoop, dif_neg hnot]
  | succ k ih =>
    intro i s hk
    by_cases hlt : i < s.areas.length
    · conv_lhs => rw [areaClickedLoop]
      conv_rhs => rw [areaClickedLoop]
      rw [dif_pos hlt, dif_pos hlt, clickStep_scaleCongr h]
      apply ih
      rcases clickStep_areas cfg labels imgW imgH x y (s.areas.get ⟨i, hlt⟩) s
        with hc | hc <;> rw [hc] <;> omega
    · rw [areaClickedLoop, dif_neg hlt, areaClickedLoop, dif_neg hlt]

theorem areaClicked_scaleCongr {cfg cfg2 : Config} (h : ScaleOnlyDiff cfg cfg2)
    (labels : List Label) (imgW imgH x y : Int) (s : SchemeState) :
    areaClicked cfg2 labels imgW imgH x y s = areaClicked cfg labels imgW imgH x y s := by
  unfold areaClicked
  exact areaClickedLoop_scaleCongr h labels imgW imgH x y
    (max s.areas.length (labelAreas cfg labels).length + 1) 0 s (by omega)

theorem stepEvent_scaleCongr {cfg cfg2 : Config} (h : ScaleOnlyDiff cfg cfg2)
    (labels : List Label) (imgW imgH : Int) (s : SchemeState) (e : SchemeEvent) :
    stepEvent cfg2 labels imgW imgH s e = stepEvent cfg labels imgW imgH s e := by
  cases e with
  | load => exact drawScheme_scaleCongr h labels imgW imgH s
  | click x y => exact areaClicked_scaleCongr h labels imgW imgH x y s
  | mousemove x y => rfl
  | itemClick pn => exact toggleHighlight_scaleCongr h labels imgW imgH s pn

/-- C2: in a state satisfying both reachable-state invariants (consistent
selection and consistent item classes), toggling any name twice in
succession restores both the selected-area set membership and every list
item's `selected`-class membership to their values before the first
toggle. -/
theorem C2_toggle_twice_restores (cfg : Config) (labels : List Label)
    (imgW imgH : Int) (s : SchemeState) (n : String)
    (hSel : SelectionInv cfg labels s) (hIt : ItemsInv s) :
    (∀ a, a ∈ (toggleHighlight cfg labels imgW imgH
        (toggleHighlight cfg labels imgW imgH s n) n).selectedAreas ↔
        a ∈ s.selectedAreas) ∧
    (∀ i, ((toggleHighlight cfg labels imgW imgH
        (toggleHighlight cfg labels imgW imgH s n) n).items.get? i).map itemSelected
      = (s.items.get? i).map itemSelected) := by
  obtain ⟨hA, hS⟩ := hSel
  by_cases h1 : findAllAreas s.areas n = []
  · rw [toggleHighlight_not_found cfg labels imgW imgH s n h1,
      toggleHighlight_not_found cfg labels imgW imgH s n h1]
    exact ⟨fun a => Iff.rfl, fun i => rfl⟩
  · by_cases h2 : s.selectedAreas.filter (fun a => a.name == n) = []
    · -- the first toggle selects, the second deselects
      have e1 := toggleHighlight_select cfg labels imgW imgH s n h1 h2
      have hs1a : (toggleHighlight cfg labels imgW imgH s n).areas =
          labelAreas cfg labels := by
        rw [e1]; exact redrawScheme_areas _ _ _ _ _
      have hs1s : (toggleHighlight cfg labels imgW imgH s n).selectedAreas =
          s.selectedAreas ++ findAllAreas s.areas n := by
        rw [e1]; exact redrawScheme_selectedAreas _ _ _ _ _
      have hs1i : (toggleHighlight cfg labels imgW imgH s n).items =
          toggleItemHighlight s.items n utility.addClass := by
        rw [e1]; exact redrawScheme_items _ _ _ _ _
      have h1b : findAllAreas (toggleHighlight cfg labels imgW imgH s n).areas n ≠ [] := by
        rw [hs1a, ← hA]; exact h1
      have h2b : (toggleHighlight cfg labels imgW imgH s n).selectedAreas.filter
          (fun a => a.name == n) ≠ [] := by
        rw [hs1s, List.filter_append, h2, List.nil_append, findAllAreas_filter_self]
        exact h1
      have e2 := toggleHighlight_deselect cfg labels imgW imgH
        (toggleHighlight cfg labels imgW imgH s n) n h1b h2b
      have hkeep : s.selectedAreas.filter (fun a => !(a.name == n)) =
          s.selectedAreas := by
        refine List.filter_eq_self.mpr ?_
        intro a ha
        have hni := List.filter_eq_nil_iff.mp h2 a ha
        simpa using hni
      have hdrop : (findAllAreas s.areas n).filter (fun a => !(a.name == n)) = [] := by
        refine List.filter_eq_nil_iff.mpr ?_
        intro a ha
        have hn2 := (mem_findAllAreas.mp ha).2
        simp [hn2]
      have hfsel : (toggleHighlight cfg labels imgW imgH
          (toggleHighlight cfg labels imgW imgH s n) n).selectedAreas =
          s.selectedAreas := by
        rw [e2, redrawScheme_selectedAreas]
        show (toggleHighlight cfg labels imgW imgH s n).selectedAreas.filter
          (fun a => !(a.name == n)) = s.selectedAreas
        rw [hs1s, List.filter_append, hkeep, hdrop, List.append_nil]
      have hfitems : (toggleHighlight cfg labels imgW imgH
          (toggleHighlight cfg labels imgW imgH s n) n).items =
          toggleItemHighlight (toggleItemHighlight s.items n utility.addClass) n
            utility.removeClass := by
        rw [e2, redrawScheme_items]
        show toggleItemHighlight (toggleHighlight cfg labels imgW imgH s n).items n
          utility.removeClass = _
        rw [hs1i]
      refine ⟨fun a => by rw [hfsel], fun i => ?_⟩
      rw [hfitems]
      unfold toggleItemHighlight
      simp only [List.get?_map, Option.map_map]
      cases hgi : s.items.get? i with
      | none => rfl
      | some it =>
        have hmem : it ∈ s.items := List.get?_mem hgi
        simp only [Option.map_some', Function.comp_apply, Option.some.injEq]
        by_cases hpn : it.partNumber = n
        · have hcf : it.parentClassName.contains "selected" = false := by
            cases hv : itemSelected it with
            | false => exact hv
            | true =>
              exfalso
              obtain ⟨a, haS, hname⟩ := (hIt it hmem).mp hv
              have hn3 := List.filter_eq_nil_iff.mp h2 a haS
              rw [hname, hpn] at hn3
              simp at hn3
          have hcf2 : "selected" ∉ it.parentClassName := by simpa using hcf
          simp [hpn, itemSelected, hcf2, not_mem_removeClass]
        · simp [hpn, itemSelected]
    · -- the first toggle deselects, the second selects
      have e1 := toggleHighlight_deselect cfg labels imgW imgH s n h1 h2
      have hs1a : (toggleHighlight cfg labels imgW imgH s n).areas =
          labelAreas cfg labels := by
        rw [e1]; exact redrawScheme_areas _ _ _ _ _
      have hs1s : (toggleHighlight cfg labels imgW imgH s n).selectedAreas =
          s.selectedAreas.filter (fun a => !(a.name == n)) := by
        rw [e1]; exact redrawScheme_selectedAreas _ _ _ _ _
      have hs1i : (toggleHighlight cfg labels imgW imgH s n).items =
          toggleItemHighlight s.items n utility.removeClass := by
        rw [e1]; exact redrawScheme_items _ _ _ _ _
      have h1b : findAllAreas (toggleHighlight cfg labels imgW imgH s n).areas n ≠ [] := by
        rw [hs1a, ← hA]; exact h1
      have hfind1 : findAllAreas (toggleHighlight cfg labels imgW imgH s n).areas n =
          findAllAreas s.areas n := by
        rw [hs1a, ← hA]
      have h2b : (toggleHighlight cfg labels imgW imgH s n).selectedAreas.filter
          (fun a => a.name == n) = [] := by
        rw [hs1s]
        refine List.filter_eq_nil_iff.mpr ?_
        intro a ha
        have hnb := (List.mem_filter.mp ha).2
        simpa using hnb
      have e2 := toggleHighlight_select cfg labels imgW imgH
        (toggleHighlight cfg labels imgW imgH s n) n h1b h2b
      obtain ⟨a0, ha0f⟩ := List.exists_mem_of_ne_nil _ h2
      have ha0S : a0 ∈ s.selectedAreas := List.mem_of_mem_filter ha0f
      have ha0n : a0.name = n := by
        have hnb := (List.mem_filter.mp ha0f).2
        simpa using hnb
      have hfsel : (toggleHighlight cfg labels imgW imgH
          (toggleHighlight cfg labels imgW imgH s n) n).selectedAreas =
          s.selectedAreas.filter (fun a => !(a.name == n)) ++
            findAllAreas s.areas n := by
        rw [e2, redrawScheme_selectedAreas]
        show (toggleHighlight cfg labels imgW imgH s n).selectedAreas ++
          findAllAreas (toggleHighlight cfg labels imgW imgH s n).areas n = _
        rw [hs1s, hfind1]
      have hfitems : (toggleHighlight cfg labels imgW imgH
          (toggleHighlight cfg labels imgW imgH s n) n).items =
          toggleItemHighlight (toggleItemHighlight s.items n utility.removeClass) n
            utility.addClass := by
        rw [e2, redrawScheme_items]
        show toggleItemHighlight (toggleHighlight cfg labels imgW imgH s n).items n
          utility.addClass = _
        rw [hs1i]
      constructor
      · intro a
        rw [hfsel]
        constructor
        · intro hmem2
          rcases List.mem_append.mp hmem2 with hmem2 | hmem2
          · exact List.mem_of_mem_filter hmem2
          · obtain ⟨haA, han⟩ := mem_findAllAreas.mp hmem2
            rw [hA] at haA
            obtain ⟨-, hall⟩ := hS a0 ha0S
            exact hall a haA (by rw [han, ha0n])
        · intro hmem2
          by_cases han : a.name = n
          · refine List.mem_append.mpr (Or.inr (mem_findAllAreas.mpr ⟨?_, han⟩))
            rw [hA]
            exact (hS a hmem2).1
          · refine List.mem_append.mpr (Or.inl (List.mem_filter.mpr ⟨hmem2, ?_⟩))
            simp [han]
      · intro i
        rw [hfitems]
        unfold toggleItemHighlight
        simp only [List.get?_map, Option.map_map]
        cases hgi : s.items.get? i with
        | none => rfl
        | some it =>
          have hmem : it ∈ s.items := List.get?_mem hgi
          simp only [Option.map_some', Function.comp_apply, Option.some.injEq]
          by_cases hpn : it.partNumber = n
          · have hct : it.parentClassName.contains "selected" = true :=
              (hIt it hmem).mpr ⟨a0, ha0S, by rw [ha0n, hpn]⟩
            have hct2 : "selected" ∈ it.parentClassName := by simpa using hct
            simp [hpn, itemSelected, hct2, mem_addClass]
          · simp [hpn, itemSelected]

/-- The label list of the README example. -/
def exLabels : List Label :=
  [⟨"1", 158, 165⟩, ⟨"1", 49, 540⟩]

/-- A parts list with one item for part number 1 and no `selected` class. -/
def exItems : List Item := [⟨"1", ["part_item"]⟩]

/-- A rendered example state: area array rebuilt from the labels, nothing
selected, nothing hovered. -/
def exState : SchemeState :=
  { areas := labelAreas defaultConfig exLabels, selectedAreas := [],
    hoveredArea := none, items := exItems, canvasClassName := [],
    canvasWidth := 660, canvasHeight := 660, canvasOps := [] }

/-- The example state with part 1 selected. -/
def exSel : SchemeState :=
  { exState with selectedAreas := findAllAreas exState.areas "1" }

/-- Witness for C2: double toggle of part 1 on the rendered example. -/
theorem C2_witness :
    ((toggleHighlight defaultConfig exLabels 600 600
        (toggleHighlight defaultConfig exLabels 600 600 exState "1") "1").items.get? 0).map
        itemSelected = (exState.items.get? 0).map itemSelected :=
  (C2_toggle_twice_restores defaultConfig exLabels 600 600 exState "1"
    ⟨rfl, fun a ha => absurd ha (List.not_mem_nil a)⟩
    (by unfold ItemsInv; decide)).2 0

/-- C1: a point `(x, y)` matches an Area iff `left ≤ x ≤ right` and
`top ≤ y ≤ bottom`, both bounds inclusive on both axes (an axis-aligned
bounding-box test; no circle is consulted), with `utility.inRange`
implementing the inclusive `min ≤ value ≤ max` test. -/
theorem C1_hit_test_inclusive_box (x y : Int) (area : Area) :
    (coordsInArea x y area = true ↔
      (area.left ≤ x ∧ x ≤ area.right ∧ area.top ≤ y ∧ y ≤ area.bottom)) ∧
    ∀ val min max : Int,
      (utility.inRange val min max = true ↔ (min ≤ val ∧ val ≤ max)) := by
  constructor
  · simp only [coordsInArea, utility.inRange, Bool.and_eq_true, decide_eq_true_eq,
      ge_iff_le]
    tauto
  · intro val min max
    simp only [utility.inRange, Bool.and_eq_true, decide_eq_true_eq, ge_iff_le]

/-- C3: in any state satisfying the selection-consistency invariant (which
holds for every reachable rendered state), every name is either fully
selected (all same-named areas, duplicates included, are in the selected
set) or fully deselected, and every `toggleHighlight` invocation preserves
the invariant. -/
theorem C3_all_or_none_selection (cfg : Config) (labels : List Label)
    (imgW imgH : Int) (s : SchemeState)
    (hSel : SelectionInv cfg labels s) :
    (∀ n, (∀ a ∈ s.areas, a.name = n → a ∈ s.selectedAreas) ∨
          (∀ a ∈ s.areas, a.name = n → a ∉ s.selectedAreas)) ∧
    (∀ n, SelectionInv cfg labels (toggleHighlight cfg labels imgW imgH s n)) := by
  obtain ⟨hA, hS⟩ := hSel
  refine ⟨?_, fun n => toggleHighlight_selectionInv cfg labels imgW imgH s n ⟨hA, hS⟩⟩
  intro n
  by_cases hex : ∃ a ∈ s.selectedAreas, a.name = n
  · obtain ⟨a0, ha0S, ha0n⟩ := hex
    left
    intro a haA han
    obtain ⟨-, hall⟩ := hS a0 ha0S
    rw [hA] at haA
    exact hall a haA (by rw [han, ha0n])
  · right
    intro a haA han haS
    exact hex ⟨a, haS, han⟩

/-- Witness for C3 at the README labels and the rendered example state. -/
theorem C3_witness :
    (∀ a ∈ exState.areas, a.name = "1" → a ∈ exState.selectedAreas) ∨
    (∀ a ∈ exState.areas, a.name = "1" → a ∉ exState.selectedAreas) :=
  (C3_all_or_none_selection defaultConfig exLabels 600 600 exState
    ⟨rfl, fun a ha => absurd ha (List.not_mem_nil a)⟩).1 "1"

/-- C4: for the `i`-th label of a render pass, the registered Area's center
is exactly `(label.x + padding, label.y + padding)` — the very point where
the label text is drawn — and its bounding box is the center plus/minus the
configured radius. -/
theorem C4_area_center_matches_label (cfg : Config) (labels : List Label)
    (imgW imgH : Int) (s : SchemeState) (i : Nat) (h : i < labels.length) :
    ∃ a : Area,
      (redrawScheme cfg labels imgW imgH s).areas.get? i = some a ∧
      (drawLabels cfg labels).1.get? i =
        some (DrawOp.fillText (labels.get ⟨i, h⟩).sLabel a.x a.y) ∧
      a.name = (labels.get ⟨i, h⟩).sLabel ∧
      a.x = (labels.get ⟨i, h⟩).label_x1 + cfg.padding ∧
      a.y = (labels.get ⟨i, h⟩).label_y1 + cfg.padding ∧
      a.radius = cfg.areaRadius ∧
      a.left = a.x - cfg.areaRadius ∧ a.top = a.y - cfg.areaRadius ∧
      a.right = a.x + cfg.areaRadius ∧ a.bottom = a.y + cfg.areaRadius := by
  refine ⟨Area.make (labels.get ⟨i, h⟩).sLabel
      ((labels.get ⟨i, h⟩).label_x1 + cfg.padding)
      ((labels.get ⟨i, h⟩).label_y1 + cfg.padding) cfg.areaRadius,
      ?_, ?_, rfl, rfl, rfl, rfl, rfl, rfl, rfl, rfl⟩
  · rw [redrawScheme_areas, labelAreas_eq, List.get?_map, List.get?_eq_get h,
      Option.map_some']
  · rw [drawLabels_eq]
    dsimp only
    rw [List.get?_map, List.get?_eq_get h, Option.map_some']
    rfl

/-- Witness for C4 at the first README label. -/
theorem C4_witness :
    ∃ a : Area,
      (redrawScheme defaultConfig exLabels 600 600 exState).areas.get? 0 = some a ∧
      (drawLabels defaultConfig exLabels).1.get? 0 =
        some (DrawOp.fillText (exLabels.get ⟨0, by decide⟩).sLabel a.x a.y) ∧
      a.name = (exLabels.get ⟨0, by decide⟩).sLabel ∧
      a.x = (exLabels.get ⟨0, by decide⟩).label_x1 + defaultConfig.padding ∧
      a.y = (exLabels.get ⟨0, by decide⟩).label_y1 + defaultConfig.padding ∧
      a.radius = defaultConfig.areaRadius ∧
      a.left = a.x - defaultConfig.areaRadius ∧
      a.top = a.y - defaultConfig.areaRadius ∧
      a.right = a.x + defaultConfig.areaRadius ∧
      a.bottom = a.y + defaultConfig.areaRadius :=
  C4_area_center_matches_label defaultConfig exLabels 600 600 exState 0 (by decide)

/-- C5: in a rendered state (area array equal to the rebuilt one), a canvas
click is exactly the left fold over the area array that toggles the name of
every area whose bounding box contains the point, in array (label) order;
a click outside every bounding box leaves the state completely unchanged. -/
theorem C5_click_toggles_every_hit (cfg : Config) (labels : List Label)
    (imgW imgH x y : Int) (s : SchemeState)
    (hA : s.areas = labelAreas cfg labels) :
    areaClicked cfg labels imgW imgH x y s =
      (labelAreas cfg labels).foldl
        (fun st a => if coordsInArea x y a then
            toggleHighlight cfg labels imgW imgH st a.name else st) s ∧
    ((∀ a ∈ s.areas, coordsInArea x y a = false) →
      areaClicked cfg labels imgW imgH x y s = s) := by
  have hfold := clickLoop_eq_foldl cfg labels imgW imgH x y
    (labelAreas cfg labels).length 0 s (by omega) hA
  rw [List.drop_zero] at hfold
  constructor
  · rw [areaClicked]
    exact hfold
  · intro hmiss
    rw [areaClicked, hfold]
    refine foldl_clickStep_no_hit cfg labels imgW imgH x y _ s ?_
    rw [← hA]
    exact hmiss

/-- Witness for C5: the README click example at `(188, 195)`. -/
theorem C5_witness :
    areaClicked defaultConfig exLabels 600 600 188 195 exState =
      (labelAreas defaultConfig exLabels).foldl
        (fun st a => if coordsInArea 188 195 a then
            toggleHighlight defaultConfig exLabels 600 600 st a.name else st)
        exState :=
  (C5_click_toggles_every_hit defaultConfig exLabels 600 600 188 195 exState rfl).1

/-- C6: a redraw rebuilds the area array from the label list alone: the
result is the rebuilt area list (independent of any area registered
before), with exactly one Area per input label. -/
theorem C6_redraw_rebuilds_areas (cfg : Config) (labels : List Label)
    (imgW imgH : Int) (s : SchemeState) :
    (redrawScheme cfg labels imgW imgH s).areas = labelAreas cfg labels ∧
    (redrawScheme cfg labels imgW imgH s).areas.length = labels.length :=
  ⟨redrawScheme_areas cfg labels imgW imgH s, by
    rw [redrawScheme_areas, labelAreas_length]⟩

/-- C7: the hovered-area state (at most one area, by the `Option` shape of
the state) moves one step per mousemove: from no-hover it becomes the first
hit area of the array scan (or stays empty), and from a hovered area it
either keeps exactly that area or becomes empty — never a different area. -/
theorem C7_hover_one_step (x y : Int) (s : SchemeState) :
    (s.hoveredArea = none →
      (areaHovered x y s).hoveredArea =
        s.areas.find? (fun a => coordsInArea x y a)) ∧
    (∀ a, s.hoveredArea = some a →
      (areaHovered x y s).hoveredArea =
        if coordsInArea x y a then some a else none) := by
  constructor
  · intro hn
    rw [← firstHitArea_eq_find]
    cases hf : firstHitArea x y s.areas with
    | none => simp [areaHovered, hn, hf]
    | some area => simp [areaHovered, hn, hf]
  · intro a ha
    cases hc : coordsInArea x y a <;> simp [areaHovered, ha, hc]

/-- Witness for C7: a mousemove over the first README label. -/
theorem C7_witness :
    (areaHovered 188 195 exState).hoveredArea =
      exState.areas.find? (fun a => coordsInArea 188 195 a) :=
  (C7_hover_one_step 188 195 exState).1 rfl

/-- C8: toggling a name for which `findAllAreas` finds nothing is a
complete no-op: the whole state — selected set, items, hover, canvas size
and the canvas command log (so no redraw is performed) — is unchanged. -/
theorem C8_toggle_unknown_name_noop (cfg : Config) (labels : List Label)
    (imgW imgH : Int) (s : SchemeState) (n : String)
    (h : findAllAreas s.areas n = []) :
    toggleHighlight cfg labels imgW imgH s n = s :=
  toggleHighlight_not_found cfg labels imgW imgH s n h

/-- Witness for C8: part number 99 appears in no area of the example. -/
theorem C8_witness :
    toggleHighlight defaultConfig exLabels 600 600 exState "99" = exState :=
  C8_toggle_unknown_name_noop defaultConfig exLabels 600 600 exState "99" (by decide)

/-- C9: a redraw keeps the selected-area set intact (also under any number
of iterated redraws) and its render pass appends, among the new drawing
commands, a stroked circle at each selected area's center with its radius
and the configured area color. -/
theorem C9_redraw_preserves_selection (cfg : Config) (labels : List Label)
    (imgW imgH : Int) (s : SchemeState) :
    (redrawScheme cfg labels imgW imgH s).selectedAreas = s.selectedAreas ∧
    (∀ k, ((fun st => redrawScheme cfg labels imgW imgH st)^[k] s).selectedAreas
        = s.selectedAreas) ∧
    ∃ newOps,
      (redrawScheme cfg labels imgW imgH s).canvasOps = s.canvasOps ++ newOps ∧
      ∀ a ∈ s.selectedAreas,
        DrawOp.strokeCircle a.x a.y a.radius cfg.areaColor ∈ newOps := by
  refine ⟨redrawScheme_selectedAreas cfg labels imgW imgH s, ?_, ?_⟩
  · intro k
    induction k with
    | zero => rfl
    | succ k ih =>
      rw [Function.iterate_succ_apply', redrawScheme_selectedAreas]
      exact ih
  · refine ⟨[DrawOp.clearRect 0 0 s.canvasWidth s.canvasHeight,
      DrawOp.fillRect 0 0 (imgW + cfg.padding * 2) (imgH + cfg.padding * 2) cfg.bgColor,
      DrawOp.drawImage cfg.padding cfg.padding] ++ (drawLabels cfg labels).1
      ++ drawSelectedAreas cfg s.selectedAreas, ?_, ?_⟩
    · simp [redrawScheme, drawScheme]
    · intro a ha
      simp only [List.mem_append]
      right
      rw [drawSelectedAreas]
      exact List.mem_map_of_mem _ ha

/-- Witness for C9 at the example state with part 1 selected. -/
theorem C9_witness :
    (redrawScheme defaultConfig exLabels 600 600 exSel).selectedAreas =
      exSel.selectedAreas ∧
    ((fun st => redrawScheme defaultConfig exLabels 600 600 st)^[5] exSel).selectedAreas =
      exSel.selectedAreas :=
  ⟨(C9_redraw_preserves_selection defaultConfig exLabels 600 600 exSel).1,
   (C9_redraw_preserves_selection defaultConfig exLabels 600 600 exSel).2.1 5⟩

/-- C10: two configurations that differ only in `scale` produce identical
behavior on every event sequence from every state — identical canvas
dimensions, areas, hit-test outcomes, selected set, items and command log —
because `scale` is stored but never read. -/
theorem C10_scale_never_read (cfg cfg2 : Config) (labels : List Label)
    (imgW imgH : Int) (s : SchemeState) (events : List SchemeEvent)
    (h : ScaleOnlyDiff cfg cfg2) :
    runEvents cfg2 labels imgW imgH s events =
      runEvents cfg labels imgW imgH s events := by
  unfold runEvents
  induction events generalizing s with
  | nil => rfl
  | cons e rest ih =>
    rw [List.foldl_cons, List.foldl_cons, stepEvent_scaleCongr h]
    exact ih _

/-- Witness for C10: scale 3 versus the default scale 1 on a load and a
click. -/
theorem C10_witness :
    runEvents { defaultConfig with scale := 3 } exLabels 600 600 exState
        [SchemeEvent.load, SchemeEvent.click 188 195] =
      runEvents defaultConfig exLabels 600 600 exState
        [SchemeEvent.load, SchemeEvent.click 188 195] :=
  C10_scale_never_read defaultConfig { defaultConfig with scale := 3 } exLabels
    600 600 exState [SchemeEvent.load, SchemeEvent.click 188 195]
    ⟨rfl, rfl, rfl, rfl, rfl, rfl, rfl⟩

end CanvasSchemes
